import Mathlib

/-!
Shallow embedding of `check_resources.py`, a Kubernetes resource checker that
parses CPU/memory quantity strings, aggregates them per pod across the
containers of Deployments and StatefulSets, and exports one CSV row per
workload after optional filtering and a deterministic sort.

Modelling conventions:
* Python `str` is embedded as `List Char` (`Str`); `str.endswith`,
  slicing `[:-n]`, `str.lower()` and the `in` substring test become the
  corresponding list operations.
* Python `float` values are embedded as `ℚ`; every conversion factor in the
  source is a power of two, so rational arithmetic is exact.
* Python's `float(text)` builtin, which raises `ValueError` on malformed
  text, is embedded as an `Except`-valued parser returning the offending
  text as the error payload.
* `None`-able values become `Option`; Python `x or d` defaulting on these
  values becomes `Option.getD` (for the values in question, falsy and
  `None`/empty coincide).
-/

/-- A Python string, embedded as its list of characters. -/
abbrev Str := List Char

/-- Conversion from a Lean string literal to the embedded string type. -/
def str (s : String) : Str := s.data

/-- Python `v.endswith(s)`: `s` is a suffix of `v`.  Implemented by comparing
the last `s.length` characters of `v` with `s`. -/
def endsWith (v s : Str) : Bool := List.drop (v.length - s.length) v == s

/-- Python slicing `v[:-n]` for `n ≥ 1`: all of `v` but the last `n`
characters (empty when `n ≥ v.length`). -/
def stripSuffix (v : Str) (n : ℕ) : Str := v.take (v.length - n)

/-- Value of a digit string, most significant digit first, as a natural
number (helper for the embedded `float` builtin). -/
def natVal (l : List Char) : ℕ := l.foldl (fun acc c => acc * 10 + (c.toNat - 48)) 0

/-- Modelled from Python's builtin `float(text)` (the source calls it on
quantity-string remainders): accepts an optional sign followed by a plain
decimal literal — digits with an optional fractional part, at least one digit
overall.  Exponents, `inf`/`nan`, underscores and surrounding whitespace,
which no Kubernetes quantity string uses, are outside the model.  Returns
`none` on malformed text (Python raises `ValueError` there). -/
def pyFloatCore (s : Str) : Option ℚ :=
  let signed : ℚ × Str :=
    match s with
    | '-' :: t => (-1, t)
    | '+' :: t => (1, t)
    | t => (1, t)
  let intPart := signed.2.takeWhile (·.isDigit)
  let remainder := signed.2.drop intPart.length
  match remainder with
  | [] =>
    if intPart.isEmpty then none
    else some (signed.1 * (natVal intPart : ℚ))
  | '.' :: fracs =>
    if fracs.all (·.isDigit) && (!intPart.isEmpty || !fracs.isEmpty) then
      some (signed.1 * ((natVal intPart : ℚ) + (natVal fracs : ℚ) / 10 ^ fracs.length))
    else none
  | _ => none

/-- Python `float(text)` as an `Except`: a `ValueError` on malformed text is
modelled as `.error` carrying the offending text. -/
def pyFloat (s : Str) : Except Str ℚ :=
  match pyFloatCore s with
  | some q => .ok q
  | none => .error s

/-- `parse_cpu` from the source: convert a CPU quantity string to
millicores.  `None`/empty input yields `0.0`; a trailing `m` is stripped and
the remainder is the millicore count; otherwise the text is cores and is
multiplied by 1000. -/
def parse_cpu (value : Option Str) : Except Str ℚ :=
  match value with
  | none => .ok 0
  | some v =>
    if v = [] then .ok 0
    else if endsWith v (str "m") then pyFloat (stripSuffix v 1)
    else (pyFloat v).map (· * 1000)

/-- The suffix table of `parse_memory`, in the source's insertion order
(Python dicts iterate in insertion order). -/
def mem_units : List (Str × ℚ) :=
  [(str "Ki", 1 / 1024), (str "Mi", 1), (str "Gi", 1024), (str "Ti", 1024 ^ 2),
   (str "k", 1 / 1024), (str "M", 1), (str "G", 1024)]

/-- The `for suffix, factor in units.items()` loop of `parse_memory`: the
first suffix of `v` in the table wins; with no match the text is raw bytes
divided by `1024²`. -/
def mem_loop (v : Str) : List (Str × ℚ) → Except Str ℚ
  | [] => (pyFloat v).map (· / 1024 ^ 2)
  | u :: rest =>
    if endsWith v u.1 then (pyFloat (stripSuffix v u.1.length)).map (· * u.2)
    else mem_loop v rest

/-- `parse_memory` from the source: convert a memory quantity string to
MiB.  `None`/empty input yields `0.0`; otherwise the suffix table is scanned
in order. -/
def parse_memory (value : Option Str) : Except Str ℚ :=
  match value with
  | none => .ok 0
  | some v =>
    if v = [] then .ok 0
    else mem_loop v mem_units

/-- The `requests`/`limits` field of a `V1ResourceRequirements`: an optional
dict from resource name to quantity string, embedded as an association
list. -/
abbrev ResDict := List (Str × Str)

/-- Python `d.get(k)` on a resource dict. -/
def dictGet (d : ResDict) (k : Str) : Option Str :=
  (d.find? (fun p => p.1 == k)).map (·.2)

/-- `kubernetes.client.V1ResourceRequirements`: optional `requests` and
`limits` dicts (`client.V1ResourceRequirements()` is the value with both
absent). -/
structure V1ResourceRequirements where
  requests : Option ResDict
  limits : Option ResDict
deriving DecidableEq

/-- A container as read by `aggregate_containers`: only its optional
`resources` field is used. -/
structure V1Container where
  resources : Option V1ResourceRequirements
deriving DecidableEq

/-- The four per-pod totals `(req_cpu, req_mem, lim_cpu, lim_mem)`. -/
abbrev Quad := ℚ × ℚ × ℚ × ℚ

/-- The loop of `aggregate_containers`, with the four running sums as the
accumulator.  Each iteration defaults a missing resource spec, missing
requests dict and missing limits dict, parses the four optional entries, and
adds them to the running sums; a parse error aborts the whole run. -/
def aggregate_go (acc : Quad) : List V1Container → Except Str Quad
  | [] => .ok acc
  | c :: cs => do
    let res := c.resources.getD ⟨none, none⟩
    let req := res.requests.getD []
    let lim := res.limits.getD []
    let rc ← parse_cpu (dictGet req (str "cpu"))
    let rm ← parse_memory (dictGet req (str "memory"))
    let lc ← parse_cpu (dictGet lim (str "cpu"))
    let lm ← parse_memory (dictGet lim (str "memory"))
    aggregate_go (acc.1 + rc, acc.2.1 + rm, acc.2.2.1 + lc, acc.2.2.2 + lm) cs

/-- `aggregate_containers` from the source: sum requests and limits across
all containers of one pod spec, starting from four zero sums. -/
def aggregate_containers (containers : List V1Container) : Except Str Quad :=
  aggregate_go (0, 0, 0, 0) containers

/-- Specification-side value of a single container: the quadruple the loop
body of `aggregate_containers` adds to the running sums for that
container. -/
def container_vals (c : V1Container) : Except Str Quad := do
  let res := c.resources.getD ⟨none, none⟩
  let req := res.requests.getD []
  let lim := res.limits.getD []
  let rc ← parse_cpu (dictGet req (str "cpu"))
  let rm ← parse_memory (dictGet req (str "memory"))
  let lc ← parse_cpu (dictGet lim (str "cpu"))
  let lm ← parse_memory (dictGet lim (str "memory"))
  return (rc, rm, lc, lm)

/-- A workload object as the collector reads it from the API client:
`metadata.namespace`, `metadata.name`, `spec.replicas` (optional) and
`spec.template.spec.containers` (optional). -/
structure Workload where
  ns : Str
  name : Str
  replicas : Option ℤ
  containers : Option (List V1Container)
deriving DecidableEq

/-- One CSV summary row, with the same fields in the same order as the dict
built by `collect_workloads` (`ns` stands for the `namespace` key). -/
structure Row where
  kind : Str
  ns : Str
  name : Str
  replicas : ℤ
  req_cpu_per_pod_m : ℚ
  req_mem_per_pod_mi : ℚ
  lim_cpu_per_pod_m : ℚ
  lim_mem_per_pod_mi : ℚ
deriving DecidableEq

/-- Round-half-to-even on rationals, the tie rule of Python's `round`. -/
def roundHalfEven (q : ℚ) : ℤ :=
  let f := ⌊q⌋
  let r := q - f
  if r < 1 / 2 then f
  else if 1 / 2 < r then f + 1
  else if f % 2 = 0 then f else f + 1

/-- Python `round(q, 1)`: round to one decimal place. -/
def round1 (q : ℚ) : ℚ := (roundHalfEven (q * 10) : ℚ) / 10

/-- The loop body of `collect_workloads` for one workload: default a missing
container list to `[]`, aggregate, and build the summary row with rounded
values and the replica count defaulted to 0. -/
def workload_row (kind : Str) (w : Workload) : Except Str Row := do
  let containers := w.containers.getD []
  let (req_cpu, req_mem, lim_cpu, lim_mem) ← aggregate_containers containers
  return { kind := kind
           ns := w.ns
           name := w.name
           replicas := w.replicas.getD 0
           req_cpu_per_pod_m := round1 req_cpu
           req_mem_per_pod_mi := round1 req_mem
           lim_cpu_per_pod_m := round1 lim_cpu
           lim_mem_per_pod_mi := round1 lim_mem }

/-- The inner `for w in workloads` loop of `collect_workloads` for one kind,
appending one row per workload in API order. -/
def collect_rows (kind : Str) : List Workload → Except Str (List Row)
  | [] => .ok []
  | w :: ws => do
    let r ← workload_row kind w
    let rest ← collect_rows kind ws
    return r :: rest

/-- `collect_workloads` from the source, with the API client's answers (the
deployment list and the stateful-set list) passed in explicitly: Deployment
rows first, then StatefulSet rows, in the order received. -/
def collect_workloads (deployments statefulsets : List Workload) : Except Str (List Row) := do
  let ds ← collect_rows (str "Deployment") deployments
  let ss ← collect_rows (str "StatefulSet") statefulsets
  return ds ++ ss

/-- Python `s.lower()`. -/
def lower (s : Str) : Str := s.map Char.toLower

/-- Python `a in b` on strings: substring (infix) test. -/
def inStr (a b : Str) : Bool := decide (a <:+: b)

/-- The filtering step of `main`: with no `--filter` argument (or an empty
one, which is falsy in Python) the rows pass unchanged; otherwise a row is
kept when the lowercased filter occurs in its lowercased name or
namespace. -/
def apply_filter (filt : Option Str) (rows : List Row) : List Row :=
  match filt with
  | none => rows
  | some fs =>
    if fs = [] then rows
    else
      let f := lower fs
      rows.filter (fun r => inStr f (lower r.name) || inStr f (lower r.ns))

/-- Lexicographic `≤` on embedded strings by character code, Python's string
order. -/
def str_le : Str → Str → Bool
  | [], _ => true
  | _ :: _, [] => false
  | a :: as, b :: bs => if a < b then true else if b < a then false else str_le as bs

/-- The sort key of `main`: the tuple `(namespace, kind, name)`. -/
def row_key (r : Row) : Str × Str × Str := (r.ns, r.kind, r.name)

/-- Lexicographic `≤` on sort-key tuples, Python's tuple order. -/
def key_le (x y : Str × Str × Str) : Bool :=
  if x.1 = y.1 then
    if x.2.1 = y.2.1 then str_le x.2.2 y.2.2 else str_le x.2.1 y.2.1
  else str_le x.1 y.1

/-- The comparison `rows.sort(key=...)` sorts by. -/
def row_le (a b : Row) : Bool := key_le (row_key a) (row_key b)

/-- `rows.sort(key=lambda r: (r["namespace"], r["kind"], r["name"]))`:
a stable ascending sort by the key tuple. -/
def sort_rows (rows : List Row) : List Row := rows.mergeSort row_le

/-- The row pipeline of `main` after collection: filter, then sort. -/
def main_rows (filt : Option Str) (rows : List Row) : List Row :=
  sort_rows (apply_filter filt rows)

/-- Observable outcome of `write_csv`: either no file and a printed
diagnostic, or a CSV file holding a header line (the field names) followed
by the records.  Both are normal returns; the function has no error
outcome. -/
inductive CsvOutput where
  | noFile (msg : Str)
  | file (fieldnames : List Str) (records : List Row)
deriving DecidableEq

/-- The CSV header produced by `csv.DictWriter` from `rows[0].keys()`: the
row dict's keys in insertion order. -/
def csv_fieldnames : List Str :=
  [str "kind", str "namespace", str "name", str "replicas",
   str "req_cpu_per_pod_m", str "req_mem_per_pod_mi",
   str "lim_cpu_per_pod_m", str "lim_mem_per_pod_mi"]

/-- `write_csv` from the source: an empty row list prints a diagnostic and
writes no file; otherwise the file holds the header row and one record per
row. -/
def write_csv (rows : List Row) : CsvOutput :=
  match rows with
  | [] => .noFile (str "No workloads found.")
  | _ :: _ => .file csv_fieldnames rows

/-- The tail of `main`: filter, sort, export. -/
def main_output (filt : Option Str) (rows : List Row) : CsvOutput :=
  write_csv (main_rows filt rows)


/-! ## Helper lemmas -/

@[simp]
theorem except_ok_bind {ε α β : Type} (a : α) (f : α → Except ε β) :
    (Except.ok a >>= f) = f a := rfl

@[simp]
theorem except_error_bind {ε α β : Type} (e : ε) (f : α → Except ε β) :
    ((Except.error e : Except ε α) >>= f) = .error e := rfl

@[simp]
theorem except_map_ok {ε α β : Type} (f : α → β) (a : α) :
    (Except.ok a : Except ε α).map f = .ok (f a) := rfl

@[simp]
theorem except_map_error {ε α β : Type} (f : α → β) (e : ε) :
    (Except.error e : Except ε α).map f = .error e := rfl

@[simp]
theorem except_pure {ε α : Type} (a : α) : (pure a : Except ε α) = .ok a := rfl

/-- The boolean `endsWith` agrees with the suffix relation. -/
theorem endsWith_iff {v s : Str} : endsWith v s = true ↔ s <:+ v := by
  constructor
  · intro h
    have h' : List.drop (v.length - s.length) v = s := by simpa [endsWith] using h
    rw [← h']
    exact List.drop_suffix _ _
  · rintro ⟨t, rfl⟩
    have hl : (t ++ s).length - s.length = t.length := by simp
    simp [endsWith, hl, List.drop_left]

/-- The suffix loop of `parse_memory` returns the branch of the first
matching table entry (in table order), and the raw-bytes branch when no
entry matches. -/
theorem mem_loop_eq_find (v : Str) (l : List (Str × ℚ)) :
    mem_loop v l =
      match l.find? (fun p => endsWith v p.1) with
      | some u => (pyFloat (stripSuffix v u.1.length)).map (· * u.2)
      | none => (pyFloat v).map (· / 1024 ^ 2) := by
  induction l with
  | nil => rfl
  | cons u rest ih =>
    by_cases h : endsWith v u.1 = true
    · rw [@List.find?_cons_of_pos _ (fun p => endsWith v p.1) u rest h]
      simp [mem_loop, h]
    · rw [@List.find?_cons_of_neg _ (fun p => endsWith v p.1) u rest h]
      simp only [mem_loop, if_neg h]
      exact ih

/-! ## C2: parse_cpu -/

/-- C2: `parse_cpu` maps the empty and the absent input to 0; for an input
ending in `m` it strips the suffix and returns the parsed remainder directly
as millicores; for any other input it parses the text as cores and
multiplies by 1000.  In particular `parse_cpu "" = 0`,
`parse_cpu "500m" = 500` and `parse_cpu "2" = 2000`. -/
theorem parse_cpu_spec :
    parse_cpu none = .ok 0 ∧
    parse_cpu (some (str "")) = .ok 0 ∧
    (∀ (v : Str) (q : ℚ), v ≠ [] → endsWith v (str "m") = true →
      pyFloatCore (stripSuffix v 1) = some q → parse_cpu (some v) = .ok q) ∧
    (∀ (v : Str) (q : ℚ), v ≠ [] → endsWith v (str "m") = false →
      pyFloatCore v = some q → parse_cpu (some v) = .ok (q * 1000)) ∧
    parse_cpu (some (str "500m")) = .ok 500 ∧
    parse_cpu (some (str "2")) = .ok 2000 := by
  refine ⟨rfl, rfl, ?_, ?_, ?_, ?_⟩
  · intro v q hne hm hq
    simp [parse_cpu, hne, hm, pyFloat, hq]
  · intro v q hne hm hq
    simp [parse_cpu, hne, hm, pyFloat, hq]
  · have h : parse_cpu (some (str "500m")) = .ok ((1 : ℚ) * ((500 : ℕ) : ℚ)) := rfl
    rw [h]; norm_num
  · have h : parse_cpu (some (str "2")) = .ok ((1 : ℚ) * ((2 : ℕ) : ℚ) * 1000) := rfl
    rw [h]; norm_num

/-- Witness for C2: the two suffix branches evaluated at the spec's own
examples. -/
theorem parse_cpu_spec_witness :
    parse_cpu (some (str "500m")) = .ok ((1 : ℚ) * ((500 : ℕ) : ℚ)) ∧
    parse_cpu (some (str "2")) = .ok ((1 : ℚ) * ((2 : ℕ) : ℚ) * 1000) :=
  ⟨parse_cpu_spec.2.2.1 (str "500m") ((1 : ℚ) * ((500 : ℕ) : ℚ)) (by decide) (by decide) rfl,
   parse_cpu_spec.2.2.2.1 (str "2") ((1 : ℚ) * ((2 : ℕ) : ℚ)) (by decide) (by decide) rfl⟩

/-! ## C1: parse_memory -/

/-- C1: `parse_memory` maps the empty and the absent input to 0; for an
input whose first matching suffix in the table `Ki, Mi, Gi, Ti, k, M, G`
(scanned in that order, first match wins) is `u`, it strips `u` and returns
the parsed remainder times `u`'s factor; with no matching suffix the whole
text is parsed as raw bytes and divided by `1024²`.  In particular
`parse_memory "" = 0`, `parse_memory "128Mi" = 128`,
`parse_memory "1Gi" = 1024` and `parse_memory "131072" = 0.125`. -/
theorem parse_memory_spec :
    parse_memory none = .ok 0 ∧
    parse_memory (some (str "")) = .ok 0 ∧
    (∀ (v : Str) (u : Str × ℚ) (q : ℚ), v ≠ [] →
      mem_units.find? (fun p => endsWith v p.1) = some u →
      pyFloatCore (stripSuffix v u.1.length) = some q →
      parse_memory (some v) = .ok (q * u.2)) ∧
    (∀ (v : Str) (q : ℚ), v ≠ [] →
      mem_units.find? (fun p => endsWith v p.1) = none →
      pyFloatCore v = some q →
      parse_memory (some v) = .ok (q / 1024 ^ 2)) ∧
    parse_memory (some (str "128Mi")) = .ok 128 ∧
    parse_memory (some (str "1Gi")) = .ok 1024 ∧
    parse_memory (some (str "131072")) = .ok (1 / 8) := by
  refine ⟨rfl, rfl, ?_, ?_, ?_, ?_, ?_⟩
  · intro v u q hne hu hq
    rw [parse_memory, if_neg hne, mem_loop_eq_find, hu]
    simp [pyFloat, hq]
  · intro v q hne hu hq
    rw [parse_memory, if_neg hne, mem_loop_eq_find, hu]
    simp [pyFloat, hq]
  · have h : parse_memory (some (str "128Mi")) = .ok ((1 : ℚ) * ((128 : ℕ) : ℚ) * 1) := rfl
    rw [h]; norm_num
  · have h : parse_memory (some (str "1Gi")) = .ok ((1 : ℚ) * ((1 : ℕ) : ℚ) * 1024) := rfl
    rw [h]; norm_num
  · have h : parse_memory (some (str "131072")) =
        .ok ((1 : ℚ) * ((131072 : ℕ) : ℚ) / 1024 ^ 2) := rfl
    rw [h]; norm_num

/-- Witness for C1: the suffix branch at `"128Mi"` (first match `Mi`,
factor 1) and the raw-bytes branch at `"131072"`. -/
theorem parse_memory_spec_witness :
    parse_memory (some (str "128Mi")) = .ok ((1 : ℚ) * ((128 : ℕ) : ℚ) * (str "Mi", (1 : ℚ)).2) ∧
    parse_memory (some (str "131072")) = .ok ((1 : ℚ) * ((131072 : ℕ) : ℚ) / 1024 ^ 2) :=
  ⟨parse_memory_spec.2.2.1 (str "128Mi") (str "Mi", (1 : ℚ)) ((1 : ℚ) * ((128 : ℕ) : ℚ))
      (by decide) (by decide) rfl,
   parse_memory_spec.2.2.2.1 (str "131072") ((1 : ℚ) * ((131072 : ℕ) : ℚ))
      (by decide) (by decide) rfl⟩

/-! ## C8: parse errors are fatal -/

/-- C8: whenever the text remaining after suffix stripping is not numeric,
both parsers return the error carrying that text (Python raises
`ValueError`) — never 0 and never any other value.  The four cases cover
the `m`-suffix and no-suffix branches of `parse_cpu` and the matching-suffix
and raw-bytes branches of `parse_memory`. -/
theorem parse_error_spec :
    (∀ v : Str, v ≠ [] → endsWith v (str "m") = true →
      pyFloatCore (stripSuffix v 1) = none →
      parse_cpu (some v) = .error (stripSuffix v 1)) ∧
    (∀ v : Str, v ≠ [] → endsWith v (str "m") = false →
      pyFloatCore v = none → parse_cpu (some v) = .error v) ∧
    (∀ (v : Str) (u : Str × ℚ), v ≠ [] →
      mem_units.find? (fun p => endsWith v p.1) = some u →
      pyFloatCore (stripSuffix v u.1.length) = none →
      parse_memory (some v) = .error (stripSuffix v u.1.length)) ∧
    (∀ v : Str, v ≠ [] →
      mem_units.find? (fun p => endsWith v p.1) = none →
      pyFloatCore v = none → parse_memory (some v) = .error v) := by
  refine ⟨?_, ?_, ?_, ?_⟩
  · intro v hne hm hq
    simp [parse_cpu, hne, hm, pyFloat, hq]
  · intro v hne hm hq
    simp [parse_cpu, hne, hm, pyFloat, hq]
  · intro v u hne hu hq
    rw [parse_memory, if_neg hne, mem_loop_eq_find, hu]
    simp [pyFloat, hq]
  · intro v hne hu hq
    rw [parse_memory, if_neg hne, mem_loop_eq_find, hu]
    simp [pyFloat, hq]

/-- Witness for C8: the malformed quantity `"abc"` makes both parsers fail
with the offending text, and `"abcMi"` fails in the suffix branch of
`parse_memory` with the stripped text `"abc"`. -/
theorem parse_error_spec_witness :
    parse_cpu (some (str "abc")) = .error (str "abc") ∧
    parse_memory (some (str "abc")) = .error (str "abc") ∧
    parse_memory (some (str "abcMi")) = .error (stripSuffix (str "abcMi") (str "Mi").length) :=
  ⟨parse_error_spec.2.1 (str "abc") (by decide) (by decide) rfl,
   parse_error_spec.2.2.2 (str "abc") (by decide) (by decide) rfl,
   parse_error_spec.2.2.1 (str "abcMi") (str "Mi", (1 : ℚ)) (by decide) (by decide) rfl⟩


/-! ## Aggregation lemmas -/

@[simp]
theorem except_bind_ok {ε α β : Type} (a : α) (f : α → Except ε β) :
    (Except.ok a).bind f = f a := rfl

@[simp]
theorem except_bind_error {ε α β : Type} (e : ε) (f : α → Except ε β) :
    (Except.error e : Except ε α).bind f = .error e := rfl

@[simp]
theorem quad_zero_add (v : Quad) : ((0, 0, 0, 0) : Quad) + v = v := by
  obtain ⟨a, b, c, d⟩ := v
  simp [Prod.mk_add_mk]

/-- Unrolling one container of the aggregation loop: its quadruple is added
to the running sums (a parse error propagates unchanged). -/
theorem aggregate_go_cons (acc : Quad) (c : V1Container) (cs : List V1Container) :
    aggregate_go acc (c :: cs) =
      (container_vals c).bind (fun v => aggregate_go (acc + v) cs) := by
  obtain ⟨a₁, a₂, a₃, a₄⟩ := acc
  simp only [aggregate_go, container_vals]
  generalize parse_cpu (dictGet ((c.resources.getD ⟨none, none⟩).requests.getD []) (str "cpu")) = P₁
  generalize parse_memory
    (dictGet ((c.resources.getD ⟨none, none⟩).requests.getD []) (str "memory")) = P₂
  generalize parse_cpu (dictGet ((c.resources.getD ⟨none, none⟩).limits.getD []) (str "cpu")) = P₃
  generalize parse_memory
    (dictGet ((c.resources.getD ⟨none, none⟩).limits.getD []) (str "memory")) = P₄
  rcases P₁ with e | rc <;> rcases P₂ with e | rm <;> rcases P₃ with e | lc <;>
    rcases P₄ with e | lm <;> simp [Except.bind, Prod.mk_add_mk]

/-- The aggregation loop from an arbitrary accumulator: the per-container
quadruples are collected left to right and their sum is added to the
accumulator. -/
theorem aggregate_go_eq_mapM (cs : List V1Container) :
    ∀ acc : Quad,
      aggregate_go acc cs = (cs.mapM container_vals).map (fun vs => acc + vs.sum) := by
  induction cs with
  | nil =>
    intro acc
    rw [List.mapM_nil]
    simp [aggregate_go]
  | cons c cs ih =>
    intro acc
    rw [aggregate_go_cons, List.mapM_cons]
    rcases hc : container_vals c with e | v
    · simp
    · simp only [except_bind_ok, except_ok_bind]
      rw [ih (acc + v)]
      rcases hm : cs.mapM container_vals with e | vs
      · simp
      · simp [add_assoc]

/-- Unrolling one container of `aggregate_containers` itself. -/
theorem aggregate_containers_cons (c : V1Container) (cs : List V1Container) :
    aggregate_containers (c :: cs) =
      (container_vals c).bind (fun v => (aggregate_containers cs).map (fun t => v + t)) := by
  rw [aggregate_containers, aggregate_go_cons]
  rcases hc : container_vals c with e | v
  · rfl
  · simp only [except_bind_ok]
    rw [aggregate_go_eq_mapM, aggregate_containers, aggregate_go_eq_mapM]
    rcases hm : cs.mapM container_vals with e | vs
    · rfl
    · simp [add_left_comm, add_comm]

/-! ## C3: aggregation defaults and totals -/

/-- C3: `aggregate_containers` of the empty list is the zero quadruple and
in general it returns the sum, in list order, of each container's parsed
quadruple; a container with a missing resource spec, a missing requests
dict, a missing limits dict, or dicts without `cpu`/`memory` entries
contributes the zero quadruple without error. -/
theorem aggregate_containers_spec :
    aggregate_containers [] = .ok (0, 0, 0, 0) ∧
    (∀ cs, aggregate_containers cs = (cs.mapM container_vals).map (fun vs => vs.sum)) ∧
    (∀ c : V1Container, c.resources = none → container_vals c = .ok (0, 0, 0, 0)) ∧
    (∀ (c : V1Container) (res : V1ResourceRequirements), c.resources = some res →
      res.requests = none → res.limits = none → container_vals c = .ok (0, 0, 0, 0)) ∧
    (∀ (c : V1Container) (res : V1ResourceRequirements) (req lim : ResDict),
      c.resources = some res → res.requests = some req → res.limits = some lim →
      dictGet req (str "cpu") = none → dictGet req (str "memory") = none →
      dictGet lim (str "cpu") = none → dictGet lim (str "memory") = none →
      container_vals c = .ok (0, 0, 0, 0)) := by
  refine ⟨rfl, ?_, ?_, ?_, ?_⟩
  · intro cs
    rw [aggregate_containers, aggregate_go_eq_mapM]
    rcases hm : cs.mapM container_vals with e | vs
    · rfl
    · simp
  · intro c h
    simp [container_vals, h, dictGet, parse_cpu, parse_memory]
  · intro c res hc hreq hlim
    simp [container_vals, hc, hreq, hlim, dictGet, parse_cpu, parse_memory]
  · intro c res req lim hc hreq hlim h₁ h₂ h₃ h₄
    simp [container_vals, hc, hreq, hlim, h₁, h₂, h₃, h₄, parse_cpu, parse_memory]

/-- Witness for C3: a container with no resource spec, one with an empty
spec, and one whose dicts name only `storage`, each contribute zero. -/
theorem aggregate_containers_spec_witness :
    container_vals (⟨none⟩ : V1Container) = .ok (0, 0, 0, 0) ∧
    container_vals (⟨some ⟨none, none⟩⟩ : V1Container) = .ok (0, 0, 0, 0) ∧
    container_vals (⟨some ⟨some [(str "storage", str "10Gi")], some []⟩⟩ : V1Container) =
      .ok (0, 0, 0, 0) :=
  ⟨aggregate_containers_spec.2.2.1 (⟨none⟩ : V1Container) rfl,
   aggregate_containers_spec.2.2.2.1 (⟨some ⟨none, none⟩⟩ : V1Container) ⟨none, none⟩ rfl rfl rfl,
   aggregate_containers_spec.2.2.2.2
     (⟨some ⟨some [(str "storage", str "10Gi")], some []⟩⟩ : V1Container)
     ⟨some [(str "storage", str "10Gi")], some []⟩ [(str "storage", str "10Gi")] []
     rfl rfl rfl rfl rfl rfl rfl⟩

/-! ## C9: aggregation is order-independent -/

/-- C9: aggregation is order-independent — for every container list and
every permutation of it, if aggregating the original list succeeds with a
quadruple of totals, aggregating the permuted list succeeds with the same
totals. -/
theorem aggregate_perm_spec (l₁ l₂ : List V1Container) (h : l₁.Perm l₂) (t : Quad)
    (h₁ : aggregate_containers l₁ = .ok t) : aggregate_containers l₂ = .ok t := by
  induction h generalizing t with
  | nil => exact h₁
  | cons c hp ih =>
    rename_i m₁ m₂
    rw [aggregate_containers_cons] at h₁ ⊢
    rcases hc : container_vals c with e | v <;> rw [hc] at h₁
    · simp at h₁
    · simp only [except_bind_ok] at h₁ ⊢
      rcases ha : aggregate_containers m₁ with e | ta <;> rw [ha] at h₁
      · simp at h₁
      · rw [ih ta ha]
        simpa using h₁
  | swap x y l =>
    rw [aggregate_containers_cons, aggregate_containers_cons] at h₁ ⊢
    rcases hx : container_vals x with e | vx <;> rcases hy : container_vals y with e' | vy <;>
      rw [hy, hx] at h₁
    · simp at h₁
    · simp at h₁
    · simp at h₁
    · simp only [except_bind_ok] at h₁ ⊢
      rcases ha : aggregate_containers l with e'' | tl <;> rw [ha] at h₁
      · simp at h₁
      · simp only [except_map_ok, Except.ok.injEq] at h₁ ⊢
        rw [← h₁]
        exact add_left_comm vx vy tl
  | trans hp₁ hp₂ ih₁ ih₂ => exact ih₂ t (ih₁ t h₁)

/-- Witness for C9: swapping two concrete containers preserves the (zero)
totals. -/
theorem aggregate_perm_spec_witness :
    aggregate_containers [(⟨some ⟨none, none⟩⟩ : V1Container), ⟨none⟩] = .ok (0, 0, 0, 0) :=
  aggregate_perm_spec [(⟨none⟩ : V1Container), ⟨some ⟨none, none⟩⟩]
    [(⟨some ⟨none, none⟩⟩ : V1Container), ⟨none⟩]
    (List.Perm.swap (⟨some ⟨none, none⟩⟩ : V1Container) (⟨none⟩ : V1Container) []) (0, 0, 0, 0)
    (by simp [aggregate_containers, aggregate_go, dictGet, parse_cpu, parse_memory])

/-! ## Collector lemmas -/

/-- A successful `mapM` over `Except` produces one output per input. -/
theorem mapM_ok_length {α β : Type} (f : α → Except Str β) :
    ∀ (l : List α) (ys : List β), l.mapM f = .ok ys → ys.length = l.length := by
  intro l
  induction l with
  | nil =>
    intro ys h
    rw [List.mapM_nil] at h
    simp only [except_pure, Except.ok.injEq] at h
    rw [← h]
    rfl
  | cons a l ih =>
    intro ys h
    rw [List.mapM_cons] at h
    rcases hfa : f a with e | b <;> rw [hfa] at h
    · simp at h
    · simp only [except_ok_bind] at h
      rcases hfl : l.mapM f with e | bs <;> rw [hfl] at h
      · simp at h
      · simp only [except_ok_bind, except_pure, Except.ok.injEq] at h
        rw [← h]
        simp [ih bs hfl]

/-- The per-kind collection loop is a traversal: one row per workload. -/
theorem collect_rows_eq_mapM (kind : Str) (ws : List Workload) :
    collect_rows kind ws = ws.mapM (workload_row kind) := by
  induction ws with
  | nil => rfl
  | cons w ws ih =>
    rw [List.mapM_cons]
    rcases hw : workload_row kind w with e | r
    · simp [collect_rows, hw]
    · simp [collect_rows, hw, ih]

/-! ## C4: one per-pod row per workload -/

/-- C4: the collector emits exactly one row per workload returned by the
API client (`collect_rows` is a traversal of the workload list, and a
successful `collect_workloads` yields as many rows as there are deployments
plus stateful sets); each row's four resource fields are the per-pod
aggregate of the workload's container list (defaulted to the empty list)
rounded to one decimal place, never multiplied by the replica count, and
the replica count is its own field, defaulted to 0 when unset. -/
theorem collect_workloads_spec :
    (∀ (kind : Str) (w : Workload) (rc rm lc lm : ℚ),
      aggregate_containers (w.containers.getD []) = .ok (rc, rm, lc, lm) →
      workload_row kind w = .ok
        { kind := kind, ns := w.ns, name := w.name, replicas := w.replicas.getD 0,
          req_cpu_per_pod_m := round1 rc, req_mem_per_pod_mi := round1 rm,
          lim_cpu_per_pod_m := round1 lc, lim_mem_per_pod_mi := round1 lm }) ∧
    (∀ (kind : Str) (ws : List Workload), collect_rows kind ws = ws.mapM (workload_row kind)) ∧
    (∀ (ds ss : List Workload) (rows : List Row),
      collect_workloads ds ss = .ok rows → rows.length = ds.length + ss.length) := by
  refine ⟨?_, ?_, ?_⟩
  · intro kind w rc rm lc lm h
    simp [workload_row, h]
  · exact collect_rows_eq_mapM
  · intro ds ss rows h
    rw [collect_workloads] at h
    rcases hd : collect_rows (str "Deployment") ds with e | rd <;> rw [hd] at h
    · simp at h
    · simp only [except_ok_bind] at h
      rcases hs : collect_rows (str "StatefulSet") ss with e | rs <;> rw [hs] at h
      · simp at h
      · simp only [except_ok_bind, except_pure, Except.ok.injEq] at h
        have hd' : rd.length = ds.length := by
          rw [collect_rows_eq_mapM] at hd
          exact mapM_ok_length _ ds rd hd
        have hs' : rs.length = ss.length := by
          rw [collect_rows_eq_mapM] at hs
          exact mapM_ok_length _ ss rs hs
        rw [← h]
        simp [hd', hs']

/-- Witness for C4: a workload with three replicas and no declared
containers yields one row with zero per-pod values and its own replica
field; a one-deployment run yields exactly one row. -/
theorem collect_workloads_spec_witness :
    workload_row (str "Deployment") (⟨str "a", str "web", some 3, none⟩ : Workload) = .ok
      { kind := str "Deployment", ns := str "a", name := str "web", replicas := 3,
        req_cpu_per_pod_m := round1 0, req_mem_per_pod_mi := round1 0,
        lim_cpu_per_pod_m := round1 0, lim_mem_per_pod_mi := round1 0 } ∧
    collect_rows (str "StatefulSet") [] = ([] : List Workload).mapM (workload_row (str "StatefulSet")) ∧
    (∀ rows : List Row,
      collect_workloads [(⟨str "a", str "web", some 3, none⟩ : Workload)] [] = .ok rows →
      rows.length = 1) :=
  ⟨collect_workloads_spec.1 (str "Deployment") ⟨str "a", str "web", some 3, none⟩ 0 0 0 0 rfl,
   collect_workloads_spec.2.1 (str "StatefulSet") [],
   fun rows h => collect_workloads_spec.2.2 [⟨str "a", str "web", some 3, none⟩] [] rows h⟩

/-! ## Order lemmas for the sort -/

/-- `str_le` is total. -/
theorem str_le_total : ∀ a b : Str, (str_le a b || str_le b a) = true := by
  intro a
  induction a with
  | nil => intro b; rfl
  | cons a as ih =>
    intro b
    cases b with
    | nil => rfl
    | cons b bs =>
      simp only [str_le]
      rcases lt_trichotomy a b with hab | rfl | hab
      · simp [hab]
      · simp only [lt_irrefl, if_false]
        exact ih bs
      · simp [hab, asymm hab]

/-- `str_le` is transitive. -/
theorem str_le_trans : ∀ a b c : Str,
    str_le a b = true → str_le b c = true → str_le a c = true := by
  intro a
  induction a with
  | nil => intro b c _ _; rfl
  | cons a as ih =>
    intro b c h₁ h₂
    cases b with
    | nil => simp [str_le] at h₁
    | cons b bs =>
      cases c with
      | nil => simp [str_le] at h₂
      | cons c cs =>
        simp only [str_le] at h₁ h₂ ⊢
        rcases lt_trichotomy a b with hab | rfl | hab
        · rcases lt_trichotomy b c with hbc | rfl | hbc
          · simp [lt_trans hab hbc]
          · simp [hab]
          · rw [if_neg (asymm hbc), if_pos hbc] at h₂
            simp at h₂
        · rw [if_neg (lt_irrefl a), if_neg (lt_irrefl a)] at h₁
          rcases lt_trichotomy a c with hac | rfl | hac
          · simp [hac]
          · rw [if_neg (lt_irrefl a), if_neg (lt_irrefl a)] at h₂ ⊢
            exact ih bs cs h₁ h₂
          · rw [if_neg (asymm hac), if_pos hac] at h₂
            simp at h₂
        · rw [if_neg (asymm hab), if_pos hab] at h₁
          simp at h₁

/-- `str_le` is antisymmetric. -/
theorem str_le_antisymm : ∀ a b : Str,
    str_le a b = true → str_le b a = true → a = b := by
  intro a
  induction a with
  | nil =>
    intro b _ h₂
    cases b with
    | nil => rfl
    | cons b bs => simp [str_le] at h₂
  | cons a as ih =>
    intro b h₁ h₂
    cases b with
    | nil => simp [str_le] at h₁
    | cons b bs =>
      simp only [str_le] at h₁ h₂
      rcases lt_trichotomy a b with hab | rfl | hab
      · rw [if_neg (asymm hab), if_pos hab] at h₂
        simp at h₂
      · rw [if_neg (lt_irrefl a), if_neg (lt_irrefl a)] at h₁ h₂
        rw [ih bs h₁ h₂]
      · rw [if_neg (asymm hab), if_pos hab] at h₁
        simp at h₁

/-- `key_le` is total. -/
theorem key_le_total : ∀ x y : Str × Str × Str, (key_le x y || key_le y x) = true := by
  rintro ⟨x₁, x₂, x₃⟩ ⟨y₁, y₂, y₃⟩
  simp only [key_le]
  by_cases e₁ : x₁ = y₁
  · subst e₁
    rw [if_pos rfl, if_pos rfl]
    by_cases e₂ : x₂ = y₂
    · subst e₂
      rw [if_pos rfl, if_pos rfl]
      exact str_le_total x₃ y₃
    · rw [if_neg e₂, if_neg (Ne.symm e₂)]
      exact str_le_total x₂ y₂
  · rw [if_neg e₁, if_neg (Ne.symm e₁)]
    exact str_le_total x₁ y₁

/-- `key_le` is transitive. -/
theorem key_le_trans : ∀ x y z : Str × Str × Str,
    key_le x y = true → key_le y z = true → key_le x z = true := by
  rintro ⟨x₁, x₂, x₃⟩ ⟨y₁, y₂, y₃⟩ ⟨z₁, z₂, z₃⟩ h₁ h₂
  simp only [key_le] at h₁ h₂ ⊢
  by_cases e₁ : x₁ = y₁
  · subst e₁
    rw [if_pos rfl] at h₁
    by_cases e₂ : x₁ = z₁
    · rw [if_pos e₂] at h₂ ⊢
      by_cases f₁ : x₂ = y₂
      · subst f₁
        rw [if_pos rfl] at h₁
        by_cases f₂ : x₂ = z₂
        · rw [if_pos f₂] at h₂ ⊢
          exact str_le_trans _ _ _ h₁ h₂
        · rw [if_neg f₂] at h₂ ⊢
          exact h₂
      · rw [if_neg f₁] at h₁
        by_cases f₂ : y₂ = z₂
        · subst f₂
          rw [if_neg f₁]
          exact h₁
        · rw [if_neg f₂] at h₂
          by_cases f₃ : x₂ = z₂
          · subst f₃
            exact absurd (str_le_antisymm _ _ h₁ h₂) f₁
          · rw [if_neg f₃]
            exact str_le_trans _ _ _ h₁ h₂
    · rw [if_neg e₂] at h₂ ⊢
      exact h₂
  · rw [if_neg e₁] at h₁
    by_cases e₂ : y₁ = z₁
    · subst e₂
      rw [if_neg e₁]
      exact h₁
    · rw [if_neg e₂] at h₂
      by_cases e₃ : x₁ = z₁
      · subst e₃
        exact absurd (str_le_antisymm _ _ h₁ h₂) e₁
      · rw [if_neg e₃]
        exact str_le_trans _ _ _ h₁ h₂

/-- `row_le` is total. -/
theorem row_le_total (a b : Row) : (row_le a b || row_le b a) = true :=
  key_le_total (row_key a) (row_key b)

/-- `row_le` is transitive. -/
theorem row_le_trans (a b c : Row) (h₁ : row_le a b = true) (h₂ : row_le b c = true) :
    row_le a c = true :=
  key_le_trans (row_key a) (row_key b) (row_key c) h₁ h₂

/-! ## C5: rows are sorted before export -/

/-- C5: for every input row list and filter, the final row list passed to
export is sorted ascending by the tuple `(namespace, kind, name)` (pairwise
`row_le`), it is a permutation of the filtered rows (sorting reorders,
never adds or drops), and the exported output is exactly `write_csv` of the
sorted filtered rows — sorting is the last step before export. -/
theorem sort_spec :
    (∀ (filt : Option Str) (rows : List Row),
      List.Pairwise (fun a b => row_le a b = true) (main_rows filt rows)) ∧
    (∀ (filt : Option Str) (rows : List Row),
      (main_rows filt rows).Perm (apply_filter filt rows)) ∧
    (∀ (filt : Option Str) (rows : List Row),
      main_output filt rows = write_csv (sort_rows (apply_filter filt rows))) := by
  refine ⟨?_, ?_, ?_⟩
  · intro filt rows
    exact List.sorted_mergeSort (fun a b c => row_le_trans a b c)
      (fun a b => row_le_total a b) (apply_filter filt rows)
  · intro filt rows
    exact List.mergeSort_perm (apply_filter filt rows) row_le
  · intro filt rows
    rfl

/-! ## C6: case-insensitive substring filter -/

/-- C6: with an absent or empty filter string the filtering step is the
identity on the row list; with a non-empty filter string a row is kept if
and only if the lowercased filter is a substring of the lowercased name or
of the lowercased namespace; and filtering sits between collection and
sorting (the final rows are the sort of the filtered rows). -/
theorem filter_spec :
    (∀ rows : List Row, apply_filter none rows = rows) ∧
    (∀ rows : List Row, apply_filter (some []) rows = rows) ∧
    (∀ (fs : Str) (rows : List Row) (r : Row), fs ≠ [] →
      (r ∈ apply_filter (some fs) rows ↔
        r ∈ rows ∧ (lower fs <:+: lower r.name ∨ lower fs <:+: lower r.ns))) ∧
    (∀ (filt : Option Str) (rows : List Row),
      main_rows filt rows = sort_rows (apply_filter filt rows)) := by
  refine ⟨fun rows => rfl, fun rows => rfl, ?_, fun filt rows => rfl⟩
  intro fs rows r hfs
  rw [apply_filter, if_neg hfs]
  rw [List.mem_filter]
  simp [inStr]

/-- Witness for C6: the filter `"web"` keeps the deployment `web-frontend`
in namespace `a` (and the membership test also rules out the stateful set
`cache` in namespace `other`, which matches on neither field). -/
theorem filter_spec_witness :
    ((⟨str "Deployment", str "a", str "web-frontend", 3, 0, 0, 0, 0⟩ : Row) ∈
        apply_filter (some (str "web"))
          [(⟨str "Deployment", str "a", str "web-frontend", 3, 0, 0, 0, 0⟩ : Row),
           ⟨str "StatefulSet", str "other", str "cache", 1, 0, 0, 0, 0⟩] ↔
      (⟨str "Deployment", str "a", str "web-frontend", 3, 0, 0, 0, 0⟩ : Row) ∈
          [(⟨str "Deployment", str "a", str "web-frontend", 3, 0, 0, 0, 0⟩ : Row),
           ⟨str "StatefulSet", str "other", str "cache", 1, 0, 0, 0, 0⟩] ∧
        (lower (str "web") <:+: lower (str "web-frontend") ∨
          lower (str "web") <:+: lower (str "a"))) :=
  filter_spec.2.2.1 (str "web")
    [⟨str "Deployment", str "a", str "web-frontend", 3, 0, 0, 0, 0⟩,
     ⟨str "StatefulSet", str "other", str "cache", 1, 0, 0, 0, 0⟩]
    ⟨str "Deployment", str "a", str "web-frontend", 3, 0, 0, 0, 0⟩ (by decide)

/-! ## C7: empty result set writes no file -/

/-- C7: an empty row list makes `write_csv` emit the diagnostic message and
no file (a normal return, not an error — `CsvOutput` has no error case and
`noFile` only arises from the empty list); a non-empty row list produces a
CSV file holding the header row of field names followed by one record per
workload row. -/
theorem write_csv_spec :
    (∀ rows : List Row, rows = [] → write_csv rows = .noFile (str "No workloads found.")) ∧
    (∀ rows : List Row, rows ≠ [] → write_csv rows = .file csv_fieldnames rows) ∧
    (∀ (rows : List Row) (msg : Str), write_csv rows = .noFile msg → rows = []) := by
  refine ⟨?_, ?_, ?_⟩
  · intro rows h
    subst h
    rfl
  · intro rows h
    cases rows with
    | nil => exact absurd rfl h
    | cons r rs => rfl
  · intro rows msg h
    cases rows with
    | nil => rfl
    | cons r rs => simp [write_csv] at h

/-- Witness for C7: the empty run prints the diagnostic and writes nothing;
a single-row run writes the header and that row. -/
theorem write_csv_spec_witness :
    write_csv [] = .noFile (str "No workloads found.") ∧
    write_csv [(⟨str "Deployment", str "a", str "web", 3, 250, 64, 500, 128⟩ : Row)] =
      .file csv_fieldnames [⟨str "Deployment", str "a", str "web", 3, 250, 64, 500, 128⟩] :=
  ⟨write_csv_spec.1 [] rfl,
   write_csv_spec.2.1 [⟨str "Deployment", str "a", str "web", 3, 250, 64, 500, 128⟩]
     (by simp)⟩

/-! ## C10: the suffix table is an antichain -/

/-- No two distinct entries of the suffix table have equal suffixes or one
a suffix of the other. -/
theorem mem_units_pairwise_nosuffix :
    mem_units.Pairwise
      (fun u₁ u₂ => u₁.1 ≠ u₂.1 ∧ ¬u₁.1 <:+ u₂.1 ∧ ¬u₂.1 <:+ u₁.1) := by
  decide

/-- A list whose entries pairwise never both satisfy `p` has at most one
entry satisfying `p`. -/
theorem countP_le_one_of_pairwise {α : Type} (p : α → Bool) :
    ∀ l : List α, l.Pairwise (fun a b => ¬(p a = true ∧ p b = true)) →
      l.countP p ≤ 1 := by
  intro l
  induction l with
  | nil => intro _; simp
  | cons a l ih =>
    intro h
    rw [List.pairwise_cons] at h
    by_cases hp : p a = true
    · rw [List.countP_cons_of_pos p l hp]
      have h0 : l.countP p = 0 :=
        List.countP_eq_zero.mpr (fun b hb hpb => h.1 b hb ⟨hp, hpb⟩)
      omega
    · rw [List.countP_cons_of_neg p l hp]
      exact ih h.2

/-- At most one entry of the suffix table can match any given string: two
matching entries would be suffixes of the same string, hence one a suffix
of the other, contradicting the antichain property. -/
theorem mem_units_match_unique {v : Str} {u₁ u₂ : Str × ℚ}
    (h₁ : u₁ ∈ mem_units) (h₂ : u₂ ∈ mem_units)
    (e₁ : endsWith v u₁.1 = true) (e₂ : endsWith v u₂.1 = true) : u₁ = u₂ := by
  by_contra hne
  have hsym :
      Symmetric (fun u₁ u₂ : Str × ℚ => u₁.1 ≠ u₂.1 ∧ ¬u₁.1 <:+ u₂.1 ∧ ¬u₂.1 <:+ u₁.1) :=
    fun a b hab => ⟨Ne.symm hab.1, hab.2.2, hab.2.1⟩
  have hR := List.Pairwise.forall hsym mem_units_pairwise_nosuffix h₁ h₂ hne
  have s₁ := endsWith_iff.mp e₁
  have s₂ := endsWith_iff.mp e₂
  rcases le_total u₁.1.length u₂.1.length with hl | hl
  · exact hR.2.1 (List.suffix_of_suffix_length_le s₁ s₂ hl)
  · exact hR.2.2 (List.suffix_of_suffix_length_le s₂ s₁ hl)

/-- The suffix loop is invariant under permutations of a table in which at
most one entry can match the scanned string. -/
theorem mem_loop_perm_aux (v : Str) :
    ∀ l₁ l₂ : List (Str × ℚ), l₁.Perm l₂ →
      (∀ u₁, u₁ ∈ l₁ → ∀ u₂, u₂ ∈ l₁ →
        endsWith v u₁.1 = true → endsWith v u₂.1 = true → u₁ = u₂) →
      mem_loop v l₁ = mem_loop v l₂ := by
  intro l₁ l₂ h
  induction h with
  | nil => intro _; rfl
  | cons x hp ih =>
    intro huniq
    simp only [mem_loop]
    by_cases hx : endsWith v x.1 = true
    · simp [hx]
    · rw [if_neg hx, if_neg hx]
      exact ih fun u₁ m₁ u₂ m₂ e₁ e₂ =>
        huniq u₁ (List.mem_cons_of_mem x m₁) u₂ (List.mem_cons_of_mem x m₂) e₁ e₂
  | swap x y l =>
    intro huniq
    simp only [mem_loop]
    by_cases hy : endsWith v y.1 = true <;> by_cases hx : endsWith v x.1 = true
    · have hxy : x = y :=
        huniq x (by simp) y (by simp) hx hy
      subst hxy
      rfl
    · simp [hy, hx]
    · simp [hy, hx]
    · simp [hy, hx]
  | trans hp₁ hp₂ ih₁ ih₂ =>
    intro huniq
    rename_i m₁ m₂ m₃
    rw [ih₁ huniq]
    exact ih₂ fun u₁ n₁ u₂ n₂ e₁ e₂ =>
      huniq u₁ (hp₁.mem_iff.mpr n₁) u₂ (hp₁.mem_iff.mpr n₂) e₁ e₂

/-- C10: at most one suffix of the table `Ki, Mi, Gi, Ti, k, M, G` can
match any given string under suffix testing, so scanning the table in any
other order gives a loop extensionally equal to the source's
priority-order loop. -/
theorem mem_units_order_spec :
    (∀ v : Str, mem_units.countP (fun u => endsWith v u.1) ≤ 1) ∧
    (∀ (l : List (Str × ℚ)) (v : Str), l.Perm mem_units →
      mem_loop v l = mem_loop v mem_units) := by
  constructor
  · intro v
    refine countP_le_one_of_pairwise _ mem_units
      (List.Pairwise.imp ?_ mem_units_pairwise_nosuffix)
    intro a b hab hpab
    have sa := endsWith_iff.mp hpab.1
    have sb := endsWith_iff.mp hpab.2
    rcases le_total a.1.length b.1.length with hl | hl
    · exact hab.2.1 (List.suffix_of_suffix_length_le sa sb hl)
    · exact hab.2.2 (List.suffix_of_suffix_length_le sb sa hl)
  · intro l v hperm
    exact mem_loop_perm_aux v l mem_units hperm fun u₁ m₁ u₂ m₂ e₁ e₂ =>
      mem_units_match_unique (hperm.mem_iff.mp m₁) (hperm.mem_iff.mp m₂) e₁ e₂

/-- Witness for C10: swapping the first two table entries (`Ki` and `Mi`)
leaves the loop's value on `"128Mi"` unchanged. -/
theorem mem_units_order_spec_witness :
    mem_loop (str "128Mi")
        ((str "Mi", (1 : ℚ)) :: (str "Ki", 1 / 1024) :: (str "Gi", 1024) ::
          (str "Ti", 1024 ^ 2) :: (str "k", 1 / 1024) :: (str "M", 1) :: [(str "G", 1024)]) =
      mem_loop (str "128Mi") mem_units :=
  mem_units_order_spec.2
    ((str "Mi", (1 : ℚ)) :: (str "Ki", 1 / 1024) :: (str "Gi", 1024) ::
      (str "Ti", 1024 ^ 2) :: (str "k", 1 / 1024) :: (str "M", 1) :: [(str "G", 1024)])
    (str "128Mi")
    (List.Perm.swap (str "Ki", 1 / 1024) (str "Mi", (1 : ℚ))
      ((str "Gi", 1024) :: (str "Ti", 1024 ^ 2) :: (str "k", 1 / 1024) ::
        (str "M", 1) :: [(str "G", 1024)]))
